import Mathlib

/-!
# Verification of the channel-activity aggregation pipeline

A shallow embedding of the core channel functions of `mattermost_api.py`
(`get_channel_posts`, `analyze_channel_emojis`, `get_posts_by_emoji`,
`filter_root_posts_only`, `enrich_posts_with_thread_reactions`) and of the
per-category unique-post counting performed by `_display_statistics` in
`tabs/channel_tab.py`.

Python dicts are embedded as structures whose fields are `Option`-valued
(absent key = `none`); `dict.get(k, d)` becomes `Option.getD`.  Python
truthiness of a possibly-missing string is `truthy` below.  HTTP calls are
embedded as explicit inputs: the paginator receives the list of page
responses the server would give to requests `0, 1, 2, …`, and the thread
enricher receives a `fetch` function standing for `get_thread_reactions`.

Two functions are additionally embedded a second time in the `HeapModel`
namespace, with an explicit object heap, because Python dicts are mutable
reference values and two of the properties considered here are frame
properties (the input dicts are / are not mutated).  In that model `dict.copy()`
is a shallow copy: the new post object shares its `metadata` reference with
the original.
-/

/-- A reaction dict.  The code reads `r.get('emoji_name')`, which may be
absent, hence `Option String`. -/
structure Reaction where
  emoji_name : Option String
  user_id : String
deriving Repr, DecidableEq

/-- A post's `metadata` dict; only the `reactions` key is ever read or
written by the embedded functions. -/
structure PostMetadata where
  reactions : Option (List Reaction)
deriving Repr, DecidableEq

/-- A post dict, with the keys the embedded functions read
(`id`, `create_at`, `root_id`, `type`, `metadata`) and the `emoji_count`
key that `get_posts_by_emoji` adds to its output copies. -/
structure Post where
  id : Option String
  create_at : Option Int
  root_id : Option String
  type : Option String
  metadata : Option PostMetadata
  emoji_count : Option Nat
deriving Repr, DecidableEq

/-- Python truthiness of a possibly-missing string value:
`None` and `""` are falsy. -/
def truthy : Option String → Bool
  | none => false
  | some s => s != ""

/-- `post.get('metadata', {}).get('reactions', [])`. -/
def getReactions (post : Post) : List Reaction :=
  ((post.metadata.getD ⟨none⟩).reactions).getD []

/-- `sum(1 for r in reactions if r.get('emoji_name') == emoji_name)`
from `get_posts_by_emoji`. -/
def matching_reaction_count (post : Post) (emoji_name : String) : Nat :=
  ((getReactions post).filter (fun r => r.emoji_name = some emoji_name)).length

/-- `get_posts_by_emoji(posts, emoji_name)` (mattermost_api.py): keep the
posts with at least one reaction named `emoji_name`, as copies annotated
with the key `emoji_count` holding the count of that emoji. -/
def get_posts_by_emoji (posts : List Post) (emoji_name : String) : List Post :=
  match posts with
  | [] => []
  | post :: rest =>
    let emoji_count := matching_reaction_count post emoji_name
    if 0 < emoji_count then
      {post with emoji_count := some emoji_count} :: get_posts_by_emoji rest emoji_name
    else
      get_posts_by_emoji rest emoji_name

/-- `filter_root_posts_only(posts)`: `[post for post in posts if not post.get('root_id')]`. -/
def filter_root_posts_only (posts : List Post) : List Post :=
  posts.filter (fun post => !truthy post.root_id)

/-- The complement of `filter_root_posts_only`: the replies, i.e. the posts
whose `root_id` is non-empty (truthy). -/
def thread_replies (posts : List Post) : List Post :=
  posts.filter (fun post => truthy post.root_id)

/-- The default emoji list of `analyze_channel_emojis`. -/
def default_emojis : List String :=
  ["ballot_box_with_check", "leaves", "ice_cube", "hammer_and_wrench", "loading", "eyes"]

/-- The body of the inner `for reaction in reactions` loop of
`analyze_channel_emojis`: `emoji_name = reaction.get('emoji_name');
if emoji_name: emojis.add(emoji_name)` (a missing or empty name is falsy
and skipped). -/
def add_reaction_emoji (emojis : Finset String) (reaction : Reaction) : Finset String :=
  match reaction.emoji_name with
  | none => emojis
  | some emoji_name => if emoji_name = "" then emojis else insert emoji_name emojis

/-- The body of the outer `for post in posts` loop of
`analyze_channel_emojis`. -/
def add_post_emojis (emojis : Finset String) (post : Post) : Finset String :=
  (getReactions post).foldl add_reaction_emoji emojis

/-- `analyze_channel_emojis(posts)` (mattermost_api.py): collect the set of
truthy `emoji_name`s over all reactions of all posts, union it with the
default set, and return the sorted list. -/
def analyze_channel_emojis (posts : List Post) : List String :=
  let emojis : Finset String := posts.foldl add_post_emojis ∅
  Finset.sort (fun a b => a ≤ b) (emojis ∪ default_emojis.toFinset)

/-- All emoji names occurring in the posts' reactions, empty names included
(the literal reading of "union of every post's reaction emoji names"). -/
def occurring_emoji_names (posts : List Post) : Finset String :=
  (posts.foldr (fun post acc => (getReactions post).filterMap Reaction.emoji_name ++ acc) []).toFinset

/-- The non-empty emoji names occurring in the posts' reactions. -/
def nonempty_emoji_names (posts : List Post) : Finset String :=
  (occurring_emoji_names posts).filter (fun emoji_name => emoji_name ≠ "")

/-! ## Category statistics (`_display_statistics` in `tabs/channel_tab.py`)

For one category the code runs
`for emoji in emojis: for post in get_posts_by_emoji(channel_posts, emoji): category_posts.add(post['id'])`
and reports `len(category_posts)`. -/

/-- The set `category_posts` of post ids accumulated for one category's
emoji list by `_display_statistics`. -/
def category_post_ids (posts : List Post) (emojis : List String) : Finset (Option String) :=
  emojis.foldl (fun category_posts emoji =>
    (get_posts_by_emoji posts emoji).foldl (fun s post => insert post.id s) category_posts) ∅

/-- `category_counts[category_name]` in `_display_statistics`: the number of
distinct post ids reacted with some emoji of the category. -/
def category_unique_post_count (posts : List Post) (emojis : List String) : Nat :=
  (category_post_ids posts emojis).card

/-- Whether a post has at least one reaction whose emoji is in `emojis`
(the condition under which `_display_statistics` puts its id in the
category's set). -/
def has_reaction_in (post : Post) (emojis : List String) : Bool :=
  emojis.any (fun emoji => decide (0 < matching_reaction_count post emoji))

/-! ## The thread-reaction enricher (`enrich_posts_with_thread_reactions`)

The HTTP-backed helper `get_thread_reactions(server_url, token, post_id)` is
embedded as an explicit argument `fetch : String → Except String (List Reaction)`:
`.ok` is its returned reaction list, `.error` is any exception it raises. -/

/-- The body of the `for post in posts` loop of
`enrich_posts_with_thread_reactions`, as the value appended for one post:
a falsy id passes the post through; otherwise a copy is made and, when the
thread fetch succeeds with a non-empty list, its `metadata['reactions']`
is replaced by the fetched list; a fetch failure leaves the copy as is. -/
def enrich_post (fetch : String → Except String (List Reaction)) (post : Post) : Post :=
  match post.id with
  | none => post
  | some post_id =>
    if post_id = "" then post
    else
      match fetch post_id with
      | .error _ => post
      | .ok thread_reactions =>
        if thread_reactions.isEmpty then post
        else
          match post.metadata with
          | none => {post with metadata := some ⟨some thread_reactions⟩}
          | some m => {post with metadata := some {m with reactions := some thread_reactions}}

/-- `enrich_posts_with_thread_reactions(server_url, token, posts)`: one
output element per input post, in order. -/
def enrich_posts_with_thread_reactions (fetch : String → Except String (List Reaction))
    (posts : List Post) : List Post :=
  posts.map (enrich_post fetch)

/-! ## The paginator (`get_channel_posts`)

The server is embedded as the list of responses it would give to page
requests `0, 1, 2, …`: each response is either a transport failure or the
page content.  A page content is the list of lookups `posts.get(post_id)`
along `order`; an id missing from the `posts` map (or mapped to a falsy
value, which the code skips with `if post:`) is `none`.  After the given
responses are exhausted the server is taken to answer with empty pages,
on which the loop breaks anyway. -/

/-- A transport failure of one page request: an HTTP error status (from
`raise_for_status`), a timeout, or another request exception. -/
inductive TransportError where
  | http (status : Nat) (body : String)
  | timeout
  | connection (msg : String)
deriving Repr, DecidableEq

/-- The `ValueError` message `get_channel_posts` raises for each transport
failure. -/
def transport_error_message : TransportError → String
  | .http status body =>
    if status = 401 then "Невалидный токен доступа"
    else if status = 403 then "Нет прав доступа к каналу"
    else if status = 404 then "Канал не найден"
    else "Ошибка API: " ++ toString status ++ " - " ++ body
  | .timeout => "Превышено время ожидания ответа от сервера"
  | .connection msg => "Ошибка подключения: " ++ msg

/-- One page response of the server. -/
def PageResponse : Type := Except TransportError (List (Option Post))

/-- The `for post_id in order` loop of `get_channel_posts`: threads the
`all_posts` accumulator and reports whether the early-exit `return` fired
(a post with `create_at` strictly below `start_timestamp` was reached). -/
def filter_page_posts (start_timestamp end_timestamp : Int) :
    List Post → List (Option Post) → List Post × Bool
  | all_posts, [] => (all_posts, false)
  | all_posts, none :: rest => filter_page_posts start_timestamp end_timestamp all_posts rest
  | all_posts, some post :: rest =>
    let post_timestamp := post.create_at.getD 0
    let all_posts' :=
      if start_timestamp ≤ post_timestamp ∧ post_timestamp ≤ end_timestamp then
        all_posts ++ [post]
      else all_posts
    if post_timestamp < start_timestamp then (all_posts', true)
    else filter_page_posts start_timestamp end_timestamp all_posts' rest

/-- The `while True` loop of `get_channel_posts`.  `.error` is the
`ValueError` the code raises on a transport failure. -/
def get_channel_posts_loop (start_timestamp end_timestamp : Int) (per_page : Nat) :
    List Post → List PageResponse → Except String (List Post)
  | all_posts, [] => .ok all_posts
  | all_posts, page :: more_pages =>
    match page with
    | .error e => .error (transport_error_message e)
    | .ok order =>
      if order.isEmpty then .ok all_posts
      else
        let step := filter_page_posts start_timestamp end_timestamp all_posts order
        if step.2 then .ok step.1
        else if order.length < per_page then .ok step.1
        else get_channel_posts_loop start_timestamp end_timestamp per_page step.1 more_pages

/-- `get_channel_posts(server_url, token, channel_id, start_date, end_date, per_page)`,
parameterized by the millisecond timestamps the code computes from the dates
and by the server's page responses. -/
def get_channel_posts (start_timestamp end_timestamp : Int) (per_page : Nat)
    (pages : List PageResponse) : Except String (List Post) :=
  get_channel_posts_loop start_timestamp end_timestamp per_page [] pages

/-! ## Reference-semantics model of the dict-copying functions

Python dicts are mutable objects reached through references, and
`dict.copy()` is shallow: the copy shares every nested object with the
original.  `HeapModel` makes this explicit with an object heap of post
dicts and metadata dicts; a post holds a reference (`metaRef`) to its
metadata dict, and the input of a function is a list of references.
Reads of an unallocated reference return an empty dict; such references
never arise from Python, and the theorems below are stated for
well-formed inputs where they matter. -/

namespace HeapModel

/-- A post dict object; `metaRef` is the reference to its `metadata` dict,
when the key is present. -/
structure PostObj where
  id : Option String
  create_at : Option Int
  root_id : Option String
  type : Option String
  metaRef : Option Nat
  emoji_count : Option Nat
deriving Repr, DecidableEq

/-- A `metadata` dict object. -/
structure MetaObj where
  reactions : Option (List Reaction)
deriving Repr, DecidableEq

/-- The object heap: post dicts and metadata dicts, addressed by index. -/
structure Heap where
  posts : List PostObj
  metas : List MetaObj
deriving Repr, DecidableEq

/-- Dereference a post object. -/
def Heap.readPost (h : Heap) (r : Nat) : PostObj :=
  h.posts.getD r ⟨none, none, none, none, none, none⟩

/-- Dereference a metadata object. -/
def Heap.readMeta (h : Heap) (r : Nat) : MetaObj :=
  h.metas.getD r ⟨none⟩

/-- Allocate a fresh post object; returns its reference. -/
def Heap.allocPost (h : Heap) (p : PostObj) : Heap × Nat :=
  ({h with posts := h.posts ++ [p]}, h.posts.length)

/-- Allocate a fresh metadata object; returns its reference. -/
def Heap.allocMeta (h : Heap) (m : MetaObj) : Heap × Nat :=
  ({h with metas := h.metas ++ [m]}, h.metas.length)

/-- Overwrite a post object in place. -/
def Heap.writePost (h : Heap) (r : Nat) (p : PostObj) : Heap :=
  {h with posts := h.posts.set r p}

/-- Overwrite a metadata object in place. -/
def Heap.writeMeta (h : Heap) (r : Nat) (m : MetaObj) : Heap :=
  {h with metas := h.metas.set r m}

/-- `post.get('metadata', {}).get('reactions', [])` through the heap. -/
def Heap.postReactions (h : Heap) (p : PostObj) : List Reaction :=
  match p.metaRef with
  | none => []
  | some mr => ((h.readMeta mr).reactions).getD []

/-- `get_posts_by_emoji` under reference semantics: each kept post is a
fresh shallow copy (`post.copy()`) that receives the `emoji_count` key; the
input post objects are never written. -/
def get_posts_by_emoji (emoji_name : String) :
    Heap → List Nat → List Nat → Heap × List Nat
  | h, [], out => (h, out)
  | h, r :: rs, out =>
    let post := h.readPost r
    let emoji_count :=
      ((h.postReactions post).filter (fun x => x.emoji_name = some emoji_name)).length
    if 0 < emoji_count then
      let alloc := h.allocPost {post with emoji_count := some emoji_count}
      get_posts_by_emoji emoji_name alloc.1 rs (out ++ [alloc.2])
    else
      get_posts_by_emoji emoji_name h rs out

/-- `enrich_posts_with_thread_reactions` under reference semantics.  For a
post with a truthy id the code runs `enriched_post = post.copy()` — a
shallow copy, so `enriched_post['metadata']` is the same object as
`post['metadata']` when the key exists — and, on a successful non-empty
thread fetch, assigns `enriched_post['metadata']['reactions']`, writing
through that shared reference. -/
def enrich_posts_with_thread_reactions (fetch : String → Except String (List Reaction)) :
    Heap → List Nat → List Nat → Heap × List Nat
  | h, [], out => (h, out)
  | h, r :: rs, out =>
    let post := h.readPost r
    match post.id with
    | none => enrich_posts_with_thread_reactions fetch h rs (out ++ [r])
    | some post_id =>
      if post_id = "" then enrich_posts_with_thread_reactions fetch h rs (out ++ [r])
      else
        let alloc := h.allocPost post
        let h1 := alloc.1
        let r1 := alloc.2
        match fetch post_id with
        | .error _ => enrich_posts_with_thread_reactions fetch h1 rs (out ++ [r1])
        | .ok thread_reactions =>
          if thread_reactions.isEmpty then
            enrich_posts_with_thread_reactions fetch h1 rs (out ++ [r1])
          else
            match post.metaRef with
            | some mr =>
              let h2 := h1.writeMeta mr {h1.readMeta mr with reactions := some thread_reactions}
              enrich_posts_with_thread_reactions fetch h2 rs (out ++ [r1])
            | none =>
              let allocM := h1.allocMeta ⟨none⟩
              let h2 := allocM.1
              let mr := allocM.2
              let h3 := h2.writePost r1 {post with metaRef := some mr}
              let h4 := h3.writeMeta mr {h3.readMeta mr with reactions := some thread_reactions}
              enrich_posts_with_thread_reactions fetch h4 rs (out ++ [r1])

end HeapModel

/-! ## Lemmas -/

lemma length_filter_add_length_filter_not {α : Type} (l : List α) (p : α → Bool) :
    (l.filter p).length + (l.filter (fun a => !p a)).length = l.length := by
  induction l with
  | nil => rfl
  | cons a l ih =>
    by_cases ha : p a = true <;> simp [List.filter_cons, ha] <;> omega

lemma get_posts_by_emoji_eq_filter_map (posts : List Post) (emoji_name : String) :
    get_posts_by_emoji posts emoji_name =
      (posts.filter (fun post => decide (0 < matching_reaction_count post emoji_name))).map
        (fun post => {post with emoji_count := some (matching_reaction_count post emoji_name)}) := by
  induction posts with
  | nil => rfl
  | cons post rest ih =>
    by_cases hp : 0 < matching_reaction_count post emoji_name <;>
      simp [get_posts_by_emoji, List.filter_cons, hp, ih]

lemma heap_get_posts_by_emoji_frame (emoji_name : String) :
    ∀ (refs : List Nat) (h : HeapModel.Heap) (out : List Nat),
      ∃ extra,
        ((HeapModel.get_posts_by_emoji emoji_name h refs out).1).posts = h.posts ++ extra ∧
        ((HeapModel.get_posts_by_emoji emoji_name h refs out).1).metas = h.metas := by
  intro refs
  induction refs with
  | nil => intro h out; exact ⟨[], by simp [HeapModel.get_posts_by_emoji]⟩
  | cons r rs ih =>
    intro h out
    simp only [HeapModel.get_posts_by_emoji]
    set cnt := ((h.postReactions (h.readPost r)).filter
      (fun x => x.emoji_name = some emoji_name)).length with hcnt
    by_cases hc : 0 < cnt
    · rw [if_pos hc]
      simp only [HeapModel.Heap.allocPost]
      obtain ⟨extra, hp, hm⟩ :=
        ih ⟨h.posts ++ [{h.readPost r with emoji_count := some cnt}], h.metas⟩
          (out ++ [h.posts.length])
      exact ⟨{h.readPost r with emoji_count := some cnt} :: extra,
        by rw [hp]; simp, by rw [hm]⟩
    · rw [if_neg hc]
      exact ih h out

/-- The non-empty emoji names of one reaction list, as a `Finset`. -/
def truthy_reaction_names (reactions : List Reaction) : Finset String :=
  ((reactions.filterMap Reaction.emoji_name).toFinset).filter (fun emoji_name => emoji_name ≠ "")

lemma foldl_add_reaction_emoji_eq (reactions : List Reaction) :
    ∀ emojis : Finset String,
      reactions.foldl add_reaction_emoji emojis = emojis ∪ truthy_reaction_names reactions := by
  induction reactions with
  | nil => intro emojis; simp [truthy_reaction_names]
  | cons r rs ih =>
    intro emojis
    rw [List.foldl_cons, ih]
    cases hr : r.emoji_name with
    | none => simp [add_reaction_emoji, truthy_reaction_names, hr, List.filterMap_cons]
    | some en =>
      by_cases hemp : en = ""
      · subst hemp
        simp [add_reaction_emoji, truthy_reaction_names, hr, List.filterMap_cons,
          Finset.filter_insert]
      · simp only [add_reaction_emoji, hr, if_neg hemp, truthy_reaction_names,
          List.filterMap_cons, List.toFinset_cons, Finset.filter_insert, if_pos hemp]
        rw [Finset.insert_union, Finset.union_insert]

lemma foldl_add_post_emojis_eq (posts : List Post) :
    ∀ emojis : Finset String,
      posts.foldl add_post_emojis emojis = emojis ∪ nonempty_emoji_names posts := by
  induction posts with
  | nil => intro emojis; simp [nonempty_emoji_names, occurring_emoji_names]
  | cons p ps ih =>
    intro emojis
    rw [List.foldl_cons, ih]
    have hhead : add_post_emojis emojis p = emojis ∪ truthy_reaction_names (getReactions p) :=
      foldl_add_reaction_emoji_eq (getReactions p) emojis
    rw [hhead]
    have hsplit : nonempty_emoji_names (p :: ps) =
        truthy_reaction_names (getReactions p) ∪ nonempty_emoji_names ps := by
      simp [nonempty_emoji_names, occurring_emoji_names, truthy_reaction_names,
        Finset.filter_union]
    rw [hsplit, Finset.union_assoc]

lemma analyze_channel_emojis_eq (posts : List Post) :
    analyze_channel_emojis posts =
      Finset.sort (fun a b => a ≤ b) (nonempty_emoji_names posts ∪ default_emojis.toFinset) := by
  show Finset.sort (fun a b => a ≤ b) (posts.foldl add_post_emojis ∅ ∪ default_emojis.toFinset) = _
  rw [foldl_add_post_emojis_eq posts ∅, Finset.empty_union]

lemma filter_page_posts_inrange (start_timestamp end_timestamp : Int) :
    ∀ (entries : List (Option Post)) (acc : List Post),
      (∀ p ∈ acc, start_timestamp ≤ p.create_at.getD 0 ∧ p.create_at.getD 0 ≤ end_timestamp) →
      ∀ p ∈ (filter_page_posts start_timestamp end_timestamp acc entries).1,
        start_timestamp ≤ p.create_at.getD 0 ∧ p.create_at.getD 0 ≤ end_timestamp := by
  intro entries
  induction entries with
  | nil => intro acc hacc; simpa [filter_page_posts] using hacc
  | cons entry rest ih =>
    intro acc hacc
    match entry with
    | none => exact ih acc hacc
    | some post =>
      simp only [filter_page_posts]
      have hacc' : ∀ p ∈ (if start_timestamp ≤ post.create_at.getD 0 ∧
          post.create_at.getD 0 ≤ end_timestamp then acc ++ [post] else acc),
          start_timestamp ≤ p.create_at.getD 0 ∧ p.create_at.getD 0 ≤ end_timestamp := by
        split
        next hin =>
          intro p hp
          rcases List.mem_append.1 hp with h1 | h1
          · exact hacc p h1
          · rw [List.mem_singleton.1 h1]; exact hin
        next => exact hacc
      split
      · exact hacc'
      · exact ih _ hacc'

lemma get_channel_posts_loop_inrange (start_timestamp end_timestamp : Int) (per_page : Nat) :
    ∀ (pages : List PageResponse) (acc : List Post),
      (∀ p ∈ acc, start_timestamp ≤ p.create_at.getD 0 ∧ p.create_at.getD 0 ≤ end_timestamp) →
      ∀ res, get_channel_posts_loop start_timestamp end_timestamp per_page acc pages = .ok res →
      ∀ p ∈ res,
        start_timestamp ≤ p.create_at.getD 0 ∧ p.create_at.getD 0 ≤ end_timestamp := by
  intro pages
  induction pages with
  | nil =>
    intro acc hacc res hres
    simp only [get_channel_posts_loop, Except.ok.injEq] at hres
    rw [← hres]; exact hacc
  | cons page more ih =>
    intro acc hacc res hres
    simp only [get_channel_posts_loop] at hres
    match page with
    | .error e => simp at hres
    | .ok order =>
      simp only at hres
      by_cases hord : order.isEmpty
      · rw [if_pos hord, Except.ok.injEq] at hres
        rw [← hres]; exact hacc
      · rw [if_neg hord] at hres
        have hstep := filter_page_posts_inrange start_timestamp end_timestamp order acc hacc
        by_cases he : (filter_page_posts start_timestamp end_timestamp acc order).2 = true
        · rw [if_pos he, Except.ok.injEq] at hres
          rw [← hres]; exact hstep
        · rw [if_neg he] at hres
          by_cases hshort : order.length < per_page
          · rw [if_pos hshort, Except.ok.injEq] at hres
            rw [← hres]; exact hstep
          · rw [if_neg hshort] at hres
            exact ih _ hstep res hres

lemma filter_page_posts_trigger_drop (start_timestamp end_timestamp : Int) (p : Post)
    (ht : p.create_at.getD 0 < start_timestamp) :
    ∀ (pre suf : List (Option Post)) (acc : List Post),
      filter_page_posts start_timestamp end_timestamp acc (pre ++ some p :: suf) =
      filter_page_posts start_timestamp end_timestamp acc (pre ++ [some p]) := by
  intro pre
  induction pre with
  | nil =>
    intro suf acc
    simp only [List.nil_append, filter_page_posts]
    rw [if_pos ht, if_pos ht]
  | cons entry rest ih =>
    intro suf acc
    match entry with
    | none => simpa [filter_page_posts] using ih suf acc
    | some q =>
      simp only [List.cons_append, filter_page_posts]
      by_cases hq : q.create_at.getD 0 < start_timestamp
      · rw [if_pos hq, if_pos hq]
      · rw [if_neg hq, if_neg hq]; exact ih suf _

lemma filter_page_posts_trigger_fires (start_timestamp end_timestamp : Int) (p : Post)
    (ht : p.create_at.getD 0 < start_timestamp) :
    ∀ (pre : List (Option Post)) (acc : List Post),
      (filter_page_posts start_timestamp end_timestamp acc (pre ++ [some p])).2 = true := by
  intro pre
  induction pre with
  | nil =>
    intro acc
    simp only [List.nil_append, filter_page_posts]
    rw [if_pos ht]
  | cons entry rest ih =>
    intro acc
    match entry with
    | none => simpa [filter_page_posts] using ih acc
    | some q =>
      simp only [List.cons_append, filter_page_posts]
      by_cases hq : q.create_at.getD 0 < start_timestamp
      · rw [if_pos hq]
      · rw [if_neg hq]; exact ih _

lemma get_channel_posts_loop_early_exit (start_timestamp end_timestamp : Int) (per_page : Nat)
    (p : Post) (ht : p.create_at.getD 0 < start_timestamp)
    (pre suf : List (Option Post)) (rest : List PageResponse) :
    ∀ (front : List PageResponse) (acc : List Post),
      get_channel_posts_loop start_timestamp end_timestamp per_page acc
        (front ++ (.ok (pre ++ some p :: suf)) :: rest) =
      get_channel_posts_loop start_timestamp end_timestamp per_page acc
        (front ++ [.ok (pre ++ [some p])]) := by
  intro front
  induction front with
  | nil =>
    intro acc
    simp only [List.nil_append, get_channel_posts_loop]
    have hne1 : (pre ++ some p :: suf).isEmpty = false := by
      cases pre <;> simp [List.isEmpty]
    have hne2 : (pre ++ [some p]).isEmpty = false := by
      cases pre <;> simp [List.isEmpty]
    rw [hne1, hne2]
    simp only [Bool.false_eq_true, if_false]
    rw [filter_page_posts_trigger_drop start_timestamp end_timestamp p ht pre suf acc]
    rw [if_pos (filter_page_posts_trigger_fires start_timestamp end_timestamp p ht pre acc),
      if_pos (filter_page_posts_trigger_fires start_timestamp end_timestamp p ht pre acc)]
  | cons page front' ih =>
    intro acc
    simp only [List.cons_append, get_channel_posts_loop]
    match page with
    | .error e => rfl
    | .ok order =>
      simp only
      by_cases hord : order.isEmpty
      · rw [if_pos hord, if_pos hord]
      · rw [if_neg hord, if_neg hord]
        by_cases he : (filter_page_posts start_timestamp end_timestamp acc order).2 = true
        · rw [if_pos he, if_pos he]
        · rw [if_neg he, if_neg he]
          by_cases hshort : order.length < per_page
          · rw [if_pos hshort, if_pos hshort]
          · rw [if_neg hshort, if_neg hshort]; exact ih _

lemma get_channel_posts_loop_error_trunc (start_timestamp end_timestamp : Int) (per_page : Nat)
    (te : TransportError) (rest : List PageResponse) :
    ∀ (front : List PageResponse) (acc : List Post),
      get_channel_posts_loop start_timestamp end_timestamp per_page acc
        (front ++ (.error te) :: rest) =
      get_channel_posts_loop start_timestamp end_timestamp per_page acc
        (front ++ [.error te]) := by
  intro front
  induction front with
  | nil => intro acc; rfl
  | cons page front' ih =>
    intro acc
    simp only [List.cons_append, get_channel_posts_loop]
    match page with
    | .error e => rfl
    | .ok order =>
      simp only
      by_cases hord : order.isEmpty
      · rw [if_pos hord, if_pos hord]
      · rw [if_neg hord, if_neg hord]
        by_cases he : (filter_page_posts start_timestamp end_timestamp acc order).2 = true
        · rw [if_pos he, if_pos he]
        · rw [if_neg he, if_neg he]
          by_cases hshort : order.length < per_page
          · rw [if_pos hshort, if_pos hshort]
          · rw [if_neg hshort, if_neg hshort]; exact ih _

lemma foldl_insert_ids_eq (l : List Post) :
    ∀ acc : Finset (Option String),
      l.foldl (fun s post => insert post.id s) acc = acc ∪ (l.map Post.id).toFinset := by
  induction l with
  | nil => intro acc; simp
  | cons p ps ih =>
    intro acc
    rw [List.foldl_cons, ih]
    simp [Finset.insert_union, Finset.union_insert]

lemma mem_category_post_ids (posts : List Post) :
    ∀ (emojis : List String) (acc : Finset (Option String)) (x : Option String),
      (x ∈ emojis.foldl (fun category_posts emoji =>
          (get_posts_by_emoji posts emoji).foldl (fun s post => insert post.id s)
            category_posts) acc) ↔
      x ∈ acc ∨ ∃ e ∈ emojis, ∃ q ∈ get_posts_by_emoji posts e, q.id = x := by
  intro emojis
  induction emojis with
  | nil => intro acc x; simp
  | cons e es ih =>
    intro acc x
    rw [List.foldl_cons, ih, foldl_insert_ids_eq]
    simp only [Finset.mem_union, List.mem_toFinset, List.mem_map, List.mem_cons]
    constructor
    · rintro ((h | ⟨q, hq, hqx⟩) | ⟨e1, he1, q, hq, hqx⟩)
      · exact Or.inl h
      · exact Or.inr ⟨e, Or.inl rfl, q, hq, hqx⟩
      · exact Or.inr ⟨e1, Or.inr he1, q, hq, hqx⟩
    · rintro (h | ⟨e1, (rfl | he1), q, hq, hqx⟩)
      · exact Or.inl (Or.inl h)
      · exact Or.inl (Or.inr ⟨q, hq, hqx⟩)
      · exact Or.inr ⟨e1, he1, q, hq, hqx⟩

lemma category_post_ids_subset (posts : List Post) (emojis : List String) :
    category_post_ids posts emojis ⊆
      ((posts.filter (fun p => has_reaction_in p emojis)).map Post.id).toFinset := by
  intro x hx
  rw [category_post_ids, mem_category_post_ids] at hx
  rcases hx with h | ⟨e, he, q, hq, hqx⟩
  · simp at h
  · rw [get_posts_by_emoji_eq_filter_map] at hq
    rcases List.mem_map.1 hq with ⟨p, hp, hpq⟩
    rcases List.mem_filter.1 hp with ⟨hpmem, hpcnt⟩
    rw [List.mem_toFinset, List.mem_map]
    refine ⟨p, List.mem_filter.2 ⟨hpmem, ?_⟩, ?_⟩
    · rw [has_reaction_in, List.any_eq_true]
      exact ⟨e, he, hpcnt⟩
    · rw [← hqx, ← hpq]

lemma category_count_le_countP (posts : List Post) (emojis : List String) :
    category_unique_post_count posts emojis ≤
      posts.countP (fun p => has_reaction_in p emojis) := by
  rw [category_unique_post_count]
  calc (category_post_ids posts emojis).card
      ≤ (((posts.filter (fun p => has_reaction_in p emojis)).map Post.id).toFinset).card :=
        Finset.card_le_card (category_post_ids_subset posts emojis)
    _ ≤ ((posts.filter (fun p => has_reaction_in p emojis)).map Post.id).length :=
        List.toFinset_card_le _
    _ = (posts.filter (fun p => has_reaction_in p emojis)).length := List.length_map _ _
    _ = posts.countP (fun p => has_reaction_in p emojis) :=
        (List.countP_eq_length_filter _ _).symm

lemma countP_three_categories_le (posts : List Post) (d ip c : List String)
    (hone : ∀ p ∈ posts,
      (if has_reaction_in p d then 1 else 0) + (if has_reaction_in p ip then 1 else 0) +
        (if has_reaction_in p c then 1 else 0) ≤ 1) :
    posts.countP (fun p => has_reaction_in p d) + posts.countP (fun p => has_reaction_in p ip) +
      posts.countP (fun p => has_reaction_in p c) ≤ posts.length := by
  induction posts with
  | nil => simp
  | cons p ps ih =>
    have hp := hone p (List.mem_cons_self p ps)
    have ihh := ih (fun q hq => hone q (List.mem_cons_of_mem p hq))
    simp only [List.countP_cons, List.length_cons]
    by_cases hd : has_reaction_in p d <;>
      by_cases hip : has_reaction_in p ip <;>
      by_cases hc : has_reaction_in p c <;>
      simp [hd, hip, hc] at hp ⊢ <;> omega

/-! ## Claims -/

/-- A concrete in-range post (`create_at = 150`) used by the witnesses. -/
def postInRange : Post :=
  ⟨some "a", some 150, none, none, some ⟨some [⟨some "eyes", "u1"⟩]⟩, none⟩

/-- A concrete post older than the range start (`create_at = 50`) used by
the witnesses. -/
def postOld : Post := ⟨some "old", some 50, none, none, none, none⟩

/-- A further concrete in-range post used by the witnesses. -/
def postLate : Post := ⟨some "late", some 180, none, none, none, none⟩

/-- C1: whenever the paginator returns a result, every post in it has
`create_at` within `[start_timestamp, end_timestamp]` inclusive; in
particular no post with `create_at < start_timestamp` appears, even if such
a post is present in a fetched page. -/
theorem paginator_result_within_range (start_timestamp end_timestamp : Int) (per_page : Nat)
    (pages : List PageResponse) (res : List Post)
    (hok : get_channel_posts start_timestamp end_timestamp per_page pages = .ok res) :
    ∀ p ∈ res,
      start_timestamp ≤ p.create_at.getD 0 ∧ p.create_at.getD 0 ≤ end_timestamp :=
  get_channel_posts_loop_inrange start_timestamp end_timestamp per_page pages []
    (by intro p hp; simp at hp) res hok

/-- Witness for C1: on a page holding an in-range post and an out-of-range
post, the returned post is within bounds. -/
theorem paginator_result_within_range_witness :
    (100 : Int) ≤ postInRange.create_at.getD 0 ∧ postInRange.create_at.getD 0 ≤ 200 :=
  paginator_result_within_range 100 200 2 [.ok [some postInRange, some postOld]]
    [postInRange] rfl postInRange (List.mem_singleton_self postInRange)

/-- C2: as soon as the paginator encounters a post whose `create_at` is
strictly below `start_timestamp`, it returns immediately with what was
accumulated so far — deleting the rest of that page and all later pages
from the server's responses does not change the result, so no post from a
later position or a later page can appear in it. -/
theorem paginator_early_exit (start_timestamp end_timestamp : Int) (per_page : Nat)
    (front : List PageResponse) (pre suf : List (Option Post)) (p : Post)
    (rest : List PageResponse) (ht : p.create_at.getD 0 < start_timestamp) :
    get_channel_posts start_timestamp end_timestamp per_page
        (front ++ (.ok (pre ++ some p :: suf)) :: rest) =
    get_channel_posts start_timestamp end_timestamp per_page
        (front ++ [.ok (pre ++ [some p])]) :=
  get_channel_posts_loop_early_exit start_timestamp end_timestamp per_page p ht pre suf rest
    front []

/-- Witness for C2: an old post in the middle of the first page makes the
in-range posts after it and the whole second page irrelevant. -/
theorem paginator_early_exit_witness :
    get_channel_posts 100 200 2
        [.ok [some postInRange, some postOld, some postLate], .ok [some postLate]] =
    get_channel_posts 100 200 2 [.ok [some postInRange, some postOld]] :=
  paginator_early_exit 100 200 2 [] [some postInRange] [some postLate] postOld
    [.ok [some postLate]] (by decide)

/-- C6: a transport failure on any reached page request aborts the whole
fetch with the typed `ValueError` of `get_channel_posts` and yields no
partial result: the error return carries none of the posts accumulated
from the earlier successful pages (second conjunct, for every accumulator),
and nothing after the failing page influences the outcome (first
conjunct). -/
theorem paginator_transport_failure_aborts (start_timestamp end_timestamp : Int)
    (per_page : Nat) (te : TransportError) (front rest : List PageResponse)
    (acc : List Post) :
    get_channel_posts start_timestamp end_timestamp per_page (front ++ (.error te) :: rest) =
      get_channel_posts start_timestamp end_timestamp per_page (front ++ [.error te]) ∧
    get_channel_posts_loop start_timestamp end_timestamp per_page acc ((.error te) :: rest) =
      .error (transport_error_message te) :=
  ⟨get_channel_posts_loop_error_trunc start_timestamp end_timestamp per_page te rest front [],
    rfl⟩

/-- A post whose thread fetch fails is passed through unchanged (its copy
equals the original as a value): the falsy-id branch, the `except` branch
and the empty-fetch branch all yield the input post. -/
lemma enrich_post_of_failed_fetch (fetch : String → Except String (List Reaction)) (post : Post)
    (hfail : ∀ pid, post.id = some pid → ∃ msg, fetch pid = .error msg) :
    enrich_post fetch post = post := by
  cases hid : post.id with
  | none => simp [enrich_post, hid]
  | some pid =>
    obtain ⟨msg, hmsg⟩ := hfail pid hid
    by_cases hemp : pid = "" <;> simp [enrich_post, hid, hmsg, hemp]

/-- C4: if the thread fetch of post `i` fails, the enricher still returns a
list of the same length, every post is still processed independently
(element `j` is the enrichment of input `j`), and element `i` is the
original post with its pre-enrichment reaction set; one failure never
aborts the batch. -/
theorem enricher_best_effort (fetch : String → Except String (List Reaction))
    (posts : List Post) (i : Nat) (hi : i < posts.length)
    (hfail : ∀ pid, posts[i].id = some pid → ∃ msg, fetch pid = .error msg) :
    (enrich_posts_with_thread_reactions fetch posts).length = posts.length ∧
    (∀ j : Nat, (enrich_posts_with_thread_reactions fetch posts)[j]? =
      (posts[j]?).map (enrich_post fetch)) ∧
    (enrich_posts_with_thread_reactions fetch posts)[i]? = some posts[i] := by
  refine ⟨by simp [enrich_posts_with_thread_reactions],
    fun j => by simp [enrich_posts_with_thread_reactions], ?_⟩
  simp [enrich_posts_with_thread_reactions, List.getElem?_eq_getElem hi,
    enrich_post_of_failed_fetch fetch posts[i] hfail]

/-- A concrete root post used by the enricher witness. -/
def enrichPostA : Post :=
  ⟨some "wa", some 1, none, none, some ⟨some [⟨some "leaves", "u1"⟩]⟩, none⟩

/-- The concrete post whose thread fetch fails in the enricher witness. -/
def enrichPostB : Post :=
  ⟨some "wb", some 2, none, none, some ⟨some [⟨some "eyes", "u2"⟩]⟩, none⟩

/-- A concrete root post used by the enricher witness. -/
def enrichPostC : Post := ⟨some "wc", some 3, none, none, none, none⟩

/-- A thread fetch that raises for post `"wb"` and succeeds elsewhere. -/
def fetchFailsOnB : String → Except String (List Reaction) :=
  fun pid => if pid = "wb" then .error "thread fetch failed" else .ok [⟨some "loading", "u3"⟩]

/-- Witness for C4: with three root posts and the second thread fetch
failing, element 2 of the result is the original second post. -/
theorem enricher_best_effort_witness :
    (enrich_posts_with_thread_reactions fetchFailsOnB
      [enrichPostA, enrichPostB, enrichPostC])[1]? = some enrichPostB :=
  (enricher_best_effort fetchFailsOnB [enrichPostA, enrichPostB, enrichPostC] 1 (by decide)
    (by
      intro pid hpid
      have hw : some "wb" = some pid := hpid
      cases hw
      exact ⟨"thread fetch failed", rfl⟩)).2.2

/-- A post carrying one Done-default reaction and one In-Progress-default
reaction — the C3 counterexample input. -/
def postTwoCategories : Post :=
  ⟨some "xy", some 1, none, none,
    some ⟨some [⟨some "ballot_box_with_check", "u1"⟩, ⟨some "hammer_and_wrench", "u2"⟩]⟩, none⟩

/-- C3 as stated is false: with the pairwise-disjoint category sets
`Done = {ballot_box_with_check}`, `In Progress = {hammer_and_wrench}`,
`Control = {}` and a single post reacted with one emoji of each of the
first two sets, the post is counted in both categories, so the sum of the
per-category unique-post counts is 2 > 1 = number of posts. -/
theorem category_sum_counterexample :
    (∀ e ∈ ["ballot_box_with_check"],
      e ∉ ["hammer_and_wrench"] ∧ e ∉ ([] : List String)) ∧
    (∀ e ∈ ["hammer_and_wrench"], e ∉ ([] : List String)) ∧
    ¬(category_unique_post_count [postTwoCategories] ["ballot_box_with_check"] +
      category_unique_post_count [postTwoCategories] ["hammer_and_wrench"] +
      category_unique_post_count [postTwoCategories] [] ≤
      ([postTwoCategories] : List Post).length) := by
  decide

/-- C3 amended: for pairwise-disjoint category emoji sets, if additionally
every post's reactions touch at most one of the three categories (and every
post carries an `id`, as `_display_statistics` reads `post['id']`), then the
sum of the three per-category unique-post counts never exceeds the total
number of posts. -/
theorem category_sum_bounded (posts : List Post)
    (done_emojis in_progress_emojis control_emojis : List String)
    (hdisj : (∀ e ∈ done_emojis, e ∉ in_progress_emojis ∧ e ∉ control_emojis) ∧
      ∀ e ∈ in_progress_emojis, e ∉ control_emojis)
    (hids : ∀ p ∈ posts, p.id ≠ none)
    (hone : ∀ p ∈ posts,
      (if has_reaction_in p done_emojis then 1 else 0) +
        (if has_reaction_in p in_progress_emojis then 1 else 0) +
        (if has_reaction_in p control_emojis then 1 else 0) ≤ 1) :
    category_unique_post_count posts done_emojis +
      category_unique_post_count posts in_progress_emojis +
      category_unique_post_count posts control_emojis ≤ posts.length := by
  have h1 := category_count_le_countP posts done_emojis
  have h2 := category_count_le_countP posts in_progress_emojis
  have h3 := category_count_le_countP posts control_emojis
  have hsum := countP_three_categories_le posts done_emojis in_progress_emojis control_emojis hone
  omega

/-- Witness for the amended C3: one post with a single Done reaction, and
the three default-derived categories. -/
theorem category_sum_bounded_witness :
    category_unique_post_count [postInRange] ["eyes"] +
      category_unique_post_count [postInRange] ["leaves"] +
      category_unique_post_count [postInRange] [] ≤ ([postInRange] : List Post).length :=
  category_sum_bounded [postInRange] ["eyes"] ["leaves"] [] (by decide) (by decide) (by decide)

/-- A post whose only reaction has an empty `emoji_name` — the C7
counterexample input. -/
def postEmptyEmoji : Post :=
  ⟨some "x", some 1, none, none, some ⟨some [⟨some "", "u1"⟩]⟩, none⟩

/-- C7 as stated is false: the code guards each name with `if emoji_name:`,
so an empty-string emoji name occurring in a reaction is *not* part of the
returned union, while "the union of all reaction emoji names occurring in
the posts" contains it. -/
theorem collect_emojis_counterexample :
    analyze_channel_emojis [postEmptyEmoji] ≠
      Finset.sort (fun a b => a ≤ b)
        (occurring_emoji_names [postEmptyEmoji] ∪ default_emojis.toFinset) := by
  intro heq
  have h1 : "" ∈ Finset.sort (fun a b => a ≤ b)
      (occurring_emoji_names [postEmptyEmoji] ∪ default_emojis.toFinset) := by
    rw [Finset.mem_sort]
    apply Finset.mem_union_left
    decide
  rw [← heq] at h1
  have h2 : "" ∉ analyze_channel_emojis [postEmptyEmoji] := by
    rw [analyze_channel_emojis_eq, Finset.mem_sort]
    decide
  exact h2 h1

/-- C7 amended: `analyze_channel_emojis` returns the union of all
*non-empty* reaction emoji names occurring in the posts with the fixed
default set, sorted ascending; in particular the result is always a sorted
superset of the default set, regardless of input. -/
theorem collect_emojis_sorted_superset (posts : List Post) :
    analyze_channel_emojis posts =
      Finset.sort (fun a b => a ≤ b)
        (nonempty_emoji_names posts ∪ default_emojis.toFinset) ∧
    List.Sorted (fun a b : String => a ≤ b) (analyze_channel_emojis posts) ∧
    ∀ emoji_name ∈ default_emojis, emoji_name ∈ analyze_channel_emojis posts := by
  refine ⟨analyze_channel_emojis_eq posts, ?_, ?_⟩
  · rw [analyze_channel_emojis_eq]
    exact Finset.sort_sorted _ _
  · intro emoji_name hmem
    rw [analyze_channel_emojis_eq, Finset.mem_sort]
    exact Finset.mem_union_right _ (List.mem_toFinset.2 hmem)

/-- The reaction initially on the shared metadata object in the C5
failing input. -/
def threadReactionOld : Reaction := ⟨some "eyes", "u1"⟩

/-- The extra thread reaction fetched in the C5 failing input. -/
def threadReactionNew : Reaction := ⟨some "eyes", "u2"⟩

/-- The C5 failing input: one post (reference 0) whose `metadata` key holds
the metadata object at reference 0, which carries one reaction. -/
def sharedMetaHeap : HeapModel.Heap :=
  ⟨[⟨some "p1", some 100, none, none, some 0, none⟩], [⟨some [threadReactionOld]⟩]⟩

/-- A thread fetch returning two reactions for every post. -/
def fetchTwoReactions : String → Except String (List Reaction) :=
  fun _ => .ok [threadReactionOld, threadReactionNew]

/-- C5 is violated by the code: `enriched_post = post.copy()` is a shallow
copy, so `enriched_post['metadata']['reactions'] = thread_reactions` writes
through the metadata object shared with the input post.  After the call,
reading the reactions of the *input* post (reference 0, not the output
copy) yields the fetched thread reactions instead of its original single
reaction. -/
theorem enricher_mutates_input_metadata :
    (((HeapModel.enrich_posts_with_thread_reactions fetchTwoReactions
          sharedMetaHeap [0] []).1).postReactions
        (((HeapModel.enrich_posts_with_thread_reactions fetchTwoReactions
          sharedMetaHeap [0] []).1).readPost 0) =
      [threadReactionOld, threadReactionNew]) ∧
    sharedMetaHeap.postReactions (sharedMetaHeap.readPost 0) = [threadReactionOld] := by
  decide

/-- C9: `filter_root_posts_only(posts)` and its complement (the posts with
truthy `root_id`, the replies) partition the input exactly: the two lengths
add up to the input length, and every post of the input is a member of
exactly one of the two lists. -/
theorem root_reply_partition (posts : List Post) :
    (filter_root_posts_only posts).length + (thread_replies posts).length = posts.length ∧
    ∀ post ∈ posts,
      (post ∈ filter_root_posts_only posts ∧ post ∉ thread_replies posts) ∨
      (post ∉ filter_root_posts_only posts ∧ post ∈ thread_replies posts) := by
  constructor
  · have := length_filter_add_length_filter_not posts (fun post => !truthy post.root_id)
    simpa [filter_root_posts_only, thread_replies] using this
  · intro post hpost
    by_cases hr : truthy post.root_id
    · right; simp [filter_root_posts_only, thread_replies, List.mem_filter, hpost, hr]
    · left; simp [filter_root_posts_only, thread_replies, List.mem_filter, hpost, hr]

/-- A concrete reply (truthy `root_id`) used by the C9 witness. -/
def replyPost : Post := ⟨some "r1", some 160, some "a", none, none, none⟩

/-- Witness for C9: a concrete reply lands in exactly one of the two
lists. -/
theorem root_reply_partition_witness :
    (replyPost ∈ filter_root_posts_only [postInRange, replyPost] ∧
      replyPost ∉ thread_replies [postInRange, replyPost]) ∨
    (replyPost ∉ filter_root_posts_only [postInRange, replyPost] ∧
      replyPost ∈ thread_replies [postInRange, replyPost]) :=
  (root_reply_partition [postInRange, replyPost]).2 replyPost (by decide)

/-- Witness for the amended C7: even on an empty input the default emoji
`eyes` is in the result. -/
theorem collect_emojis_sorted_superset_witness :
    "eyes" ∈ analyze_channel_emojis [] :=
  (collect_emojis_sorted_superset []).2.2 "eyes" (by decide)

/-- C8: `get_posts_by_emoji(posts, emoji_name)` returns exactly the posts
having at least one reaction with that emoji name, in input order, each a
copy annotated with `emoji_count` equal to the number of reactions carrying
that specific emoji (not the post's total reaction count); posts with zero
matching reactions are excluded. -/
theorem posts_by_emoji_filter_annotate (posts : List Post) (emoji_name : String) :
    get_posts_by_emoji posts emoji_name =
      (posts.filter (fun post => decide (0 < matching_reaction_count post emoji_name))).map
        (fun post => {post with emoji_count := some (matching_reaction_count post emoji_name)}) :=
  get_posts_by_emoji_eq_filter_map posts emoji_name

/-- C10: under reference semantics, `get_posts_by_emoji` never modifies any
pre-existing object: it only appends freshly allocated copies to the heap
(the `emoji_count` key is set on a copy), and every metadata object is left
untouched — so no input post gains an `emoji_count` key or changes in any
other way. -/
theorem posts_by_emoji_preserves_input (h : HeapModel.Heap) (refs : List Nat)
    (emoji_name : String) :
    ∃ extra,
      ((HeapModel.get_posts_by_emoji emoji_name h refs []).1).posts = h.posts ++ extra ∧
      ((HeapModel.get_posts_by_emoji emoji_name h refs []).1).metas = h.metas :=
  heap_get_posts_by_emoji_frame emoji_name refs h []
